import Mathlib

/-!
Shallow embedding of the PrecisionCalculator / MathFix library.

JavaScript numbers are IEEE-754 doubles; this development idealises them as
exact rationals (`ℚ`) extended with the special values `Infinity`,
`-Infinity` and `NaN`.  On the decimal-representable fragment exercised by
the verified properties the idealisation agrees with the double semantics
(the library's whole purpose is to stay decimal-exact there).  Signed zero
is not distinguished.

JavaScript strings are modelled as `List Char`.
-/

set_option maxRecDepth 40000
unseal Rat.mul Rat.add Rat.sub Rat.inv Rat.ofScientific

/-- Idealised JavaScript number: exact rational, or one of the IEEE special
values `Infinity` / `-Infinity` / `NaN`. -/
inductive JSNumber where
  | fin (q : ℚ)
  | posInf
  | negInf
  | nan
deriving DecidableEq, Repr

/-- JS `+` on numbers (finite part exact). -/
def jsAdd : JSNumber → JSNumber → JSNumber
  | .fin a, .fin b => .fin (a + b)
  | .nan, _ => .nan
  | _, .nan => .nan
  | .fin _, x => x
  | x, .fin _ => x
  | .posInf, .posInf => .posInf
  | .negInf, .negInf => .negInf
  | _, _ => .nan

/-- JS unary minus. -/
def jsNeg : JSNumber → JSNumber
  | .fin a => .fin (-a)
  | .posInf => .negInf
  | .negInf => .posInf
  | .nan => .nan

/-- JS binary `-`. -/
def jsSub (a b : JSNumber) : JSNumber := jsAdd a (jsNeg b)

/-- JS `*` on numbers (finite part exact). -/
def jsMul : JSNumber → JSNumber → JSNumber
  | .fin a, .fin b => .fin (a * b)
  | .nan, _ => .nan
  | _, .nan => .nan
  | .fin a, .posInf => if a = 0 then .nan else if 0 < a then .posInf else .negInf
  | .fin a, .negInf => if a = 0 then .nan else if 0 < a then .negInf else .posInf
  | .posInf, .fin b => if b = 0 then .nan else if 0 < b then .posInf else .negInf
  | .negInf, .fin b => if b = 0 then .nan else if 0 < b then .negInf else .posInf
  | .posInf, .posInf => .posInf
  | .posInf, .negInf => .negInf
  | .negInf, .posInf => .negInf
  | .negInf, .negInf => .posInf

/-- JS `/` on numbers.  Division of a nonzero finite value by (unsigned)
zero gives an infinity, `0 / 0` gives `NaN`. -/
def jsDiv : JSNumber → JSNumber → JSNumber
  | .nan, _ => .nan
  | _, .nan => .nan
  | .fin a, .fin b =>
      if b = 0 then (if a = 0 then .nan else if 0 < a then .posInf else .negInf)
      else .fin (a / b)
  | .fin _, _ => .fin 0
  | .posInf, .fin b => if 0 ≤ b then .posInf else .negInf
  | .negInf, .fin b => if 0 ≤ b then .negInf else .posInf
  | _, _ => .nan

/-- JS `Math.max` on two numbers. -/
def jsMax : JSNumber → JSNumber → JSNumber
  | .nan, _ => .nan
  | _, .nan => .nan
  | .fin a, .fin b => .fin (max a b)
  | .posInf, _ => .posInf
  | _, .posInf => .posInf
  | x, .negInf => x
  | .negInf, x => x

/-- JS `Math.round`: half-integers round toward `+∞`, so `⌊x + 1/2⌋`. -/
def jsRound : JSNumber → JSNumber
  | .fin q => .fin ((⌊q + 1/2⌋ : ℤ) : ℚ)
  | x => x

/-- First exponent `e` with `i ≤ e < i + fuel` such that `q * 10^e` is an
integer, i.e. the number of fractional digits of the exact decimal
expansion of `q` when the scan starts at `i = 0`. -/
def decSearch (q : ℚ) : ℕ → ℕ → Option ℕ
  | _, 0 => none
  | i, fuel+1 => if (q * 10 ^ i).den = 1 then some i else decSearch q (i+1) fuel

/-- Exact decimal representation of `q`: `decExp? q = some (m, e)` means
`q = m / 10^e` with `e` minimal (so `m` carries no trailing zero unless
`e = 0`).  The scan bound 1100 covers every IEEE-754 double (whose decimal
expansions have at most 1074 fractional digits); rationals outside that
fragment yield `none`. -/
def decExp? (q : ℚ) : Option (ℤ × ℕ) :=
  (decSearch q 0 1100).map fun e => ((q * 10 ^ e).num, e)

/-- Specification-side count of base-10 fractional digits of the canonical
(non-exponential) decimal string of `q`: the least `e` with `q * 10^e`
integral ("Scale" in the spec's glossary). -/
def specFracDigits (q : ℚ) : ℕ := (decSearch q 0 1100).getD 0

/-- The character of a decimal digit. -/
def natDigitChar (d : ℕ) : Char := Char.ofNat (48 + d)

/-- Fuel-indexed helper for `natDigits` (structural recursion so that the
kernel can evaluate it). -/
def natDigitsAux : ℕ → ℕ → List Char
  | 0, _ => []
  | fuel+1, n =>
      if n < 10 then [natDigitChar n]
      else natDigitsAux fuel (n / 10) ++ [natDigitChar (n % 10)]

/-- Base-10 digit characters of a natural number, most significant first. -/
def natDigits (n : ℕ) : List Char := natDigitsAux (n + 1) n

/-- Drop trailing `'0'` characters from a digit list. -/
def dropTrailZeros (ds : List Char) : List Char :=
  (ds.reverse.dropWhile (· = '0')).reverse

/-- ECMA-262 exponential rendering piece: significand digits `ds` (point
after the first digit) followed by `e±(n-1)` for point position `n`. -/
def expDigits (ds : List Char) (n : ℤ) : List Char :=
  (match ds with
   | [] => []
   | d :: rest => if rest = [] then [d] else d :: '.' :: rest) ++
  (if n - 1 < 0 then 'e' :: '-' :: natDigits (1 - n).toNat
   else 'e' :: '+' :: natDigits (n - 1).toNat)

/-- ECMA-262 `Number::toString` rendering of the positive value `a / 10^e`
(`a ≠ 0`; exact decimal representation, `e` minimal): decimal notation for
point positions `-6 < n ≤ 21`, exponential notation outside. -/
def renderPos (a : ℕ) (e : ℕ) : List Char :=
  let ds := natDigits a
  let k := ds.length
  let n : ℤ := (k : ℤ) - e
  if e = 0 then
    if k ≤ 21 then ds
    else expDigits (dropTrailZeros ds) n
  else
    if 21 < n then expDigits ds n
    else if 0 < n then ds.take n.toNat ++ '.' :: ds.drop n.toNat
    else if -6 < n then '0' :: '.' :: (List.replicate (e - k) '0' ++ ds)
    else expDigits ds n

/-- JS `Number.prototype.toString` (base 10) on the idealised finite
values.  Rationals with no finite decimal expansion cannot arise as exact
doubles; they fall back to a placeholder and are outside every verified
execution. -/
def jsToString (q : ℚ) : List Char :=
  match decExp? q with
  | some (m, e) =>
      if m = 0 then ['0']
      else (if m < 0 then ['-'] else []) ++ renderPos m.natAbs e
  | none => ['?']

/-- `toString` on a full JS number (`Infinity` / `NaN` spelled out). -/
def jsToStringNum : JSNumber → List Char
  | .fin q => jsToString q
  | .posInf => ['I', 'n', 'f', 'i', 'n', 'i', 't', 'y']
  | .negInf => ['-', 'I', 'n', 'f', 'i', 'n', 'i', 't', 'y']
  | .nan => ['N', 'a', 'N']

/-- JS `String.prototype.split('.')` on a character list. -/
def splitOnDot : List Char → List (List Char)
  | [] => [[]]
  | c :: rest =>
    if c = '.' then [] :: splitOnDot rest
    else
      match splitOnDot rest with
      | [] => [[c]]
      | h :: t => (c :: h) :: t

/-- `getDecimalPlaces` (precision-calculator.js lines 62-66, identical in
mathfix-core.js lines 255-261): `str.indexOf('.') === -1 ? 0 :
str.split('.')[1].length` on `num.toString()`. -/
def jsGetDecimalPlaces (n : JSNumber) : ℕ :=
  let s := jsToStringNum n
  if '.' ∈ s then ((splitOnDot s).getD 1 []).length else 0


/-- Error taxonomy of the library (spec §7). -/
inductive Err where
  | divisionByZero
  | unbalancedParens
  | invalidExpression
  | rangeError
  | configError
  | fuelExhausted
deriving DecidableEq, Repr

deriving instance DecidableEq for Except

/-- A JS value that is either a string or a number (several formatters
return one or the other depending on a flag). -/
inductive JSOut where
  | str (s : List Char)
  | num (n : JSNumber)
deriving DecidableEq, Repr

namespace PC

/-- `toInteger` (precision-calculator.js 79-86): scale by
`10^getDecimalPlaces(num)` and `Math.round`; returns `{value, factor}`.
The factor is always the finite number `10^dp`. -/
def toInteger (num : JSNumber) : JSNumber × ℚ :=
  let dp := jsGetDecimalPlaces num
  (jsRound (jsMul num (.fin (10 ^ dp))), 10 ^ dp)

/-- `add` (precision-calculator.js 98-107). -/
def add (a b : JSNumber) : JSNumber :=
  let aInt := toInteger a
  let bInt := toInteger b
  let maxFactor : ℚ := max aInt.2 bInt.2
  let aValue := jsMul aInt.1 (.fin (maxFactor / aInt.2))
  let bValue := jsMul bInt.1 (.fin (maxFactor / bInt.2))
  jsDiv (jsAdd aValue bValue) (.fin maxFactor)

/-- `subtract` (precision-calculator.js 119-128). -/
def subtract (a b : JSNumber) : JSNumber :=
  let aInt := toInteger a
  let bInt := toInteger b
  let maxFactor : ℚ := max aInt.2 bInt.2
  let aValue := jsMul aInt.1 (.fin (maxFactor / aInt.2))
  let bValue := jsMul bInt.1 (.fin (maxFactor / bInt.2))
  jsDiv (jsSub aValue bValue) (.fin maxFactor)

/-- `multiply` (precision-calculator.js 140-145). -/
def multiply (a b : JSNumber) : JSNumber :=
  let aInt := toInteger a
  let bInt := toInteger b
  jsDiv (jsMul aInt.1 bInt.1) (.fin (aInt.2 * bInt.2))

/-- `divide` (precision-calculator.js 158-167): throws on `b === 0`,
otherwise `(aInt.value / bInt.value) * (bInt.factor / aInt.factor)`. -/
def divide (a b : JSNumber) : Except Err JSNumber :=
  if b = .fin 0 then .error .divisionByZero
  else
    let aInt := toInteger a
    let bInt := toInteger b
    .ok (jsMul (jsDiv aInt.1 bInt.1) (.fin (bInt.2 / aInt.2)))

/-- `round` (precision-calculator.js 185-188):
`Math.round(num * 10^p) / 10^p`. -/
def round (num : JSNumber) (precision : ℕ) : JSNumber :=
  let factor : ℚ := 10 ^ precision
  jsDiv (jsRound (jsMul num (.fin factor))) (.fin factor)

/-- `toPercent` (precision-calculator.js 219-223): percent value via the
exact `multiply`, rounded, `'%'` appended only when `withSymbol`. -/
def toPercent (num : JSNumber) (precision : ℕ) (withSymbol : Bool) : JSOut :=
  let percentValue := multiply num (.fin 100)
  let rounded := round percentValue precision
  if withSymbol then .str (jsToStringNum rounded ++ ['%']) else .num rounded

/-- JS `\s` on the characters that can occur here. -/
def isWS (c : Char) : Bool := c = ' ' || c = '\t' || c = '\n' || c = '\r'

/-- `replace` of a leading minus by `"(0-"` (regex `^` anchored). -/
def rewriteLeadMinus : List Char → List Char
  | '-' :: rest => '(' :: '0' :: '-' :: rest
  | cs => cs

/-- Character class `[+\-*\/(]`. -/
def isOpLP (c : Char) : Bool := c = '+' || c = '-' || c = '*' || c = '/' || c = '('

/-- Global `replace` of an operator or `'('` followed by `'-'` with the
same character followed by `"(0-"`, scanning left to right and resuming
after each replaced pair. -/
def rewriteOpMinus : List Char → List Char
  | a :: '-' :: rest =>
      if isOpLP a then a :: '(' :: '0' :: '-' :: rewriteOpMinus rest
      else a :: rewriteOpMinus ('-' :: rest)
  | a :: rest => a :: rewriteOpMinus rest
  | [] => []

/-- Count of non-overlapping occurrences of `"(0-"` (the appended-bracket
counter in `calculate`). -/
def countZeroMinus : List Char → ℕ
  | '(' :: '0' :: '-' :: rest => countZeroMinus rest + 1
  | _ :: rest => countZeroMinus rest
  | [] => 0

/-- `String.prototype.indexOf` for a single character. -/
def idxOf? (c : Char) : List Char → Option ℕ
  | [] => none
  | a :: rest => if a = c then some 0 else (idxOf? c rest).map (· + 1)

/-- `String.prototype.lastIndexOf` for a single character. -/
def lastIdxOf? (c : Char) (cs : List Char) : Option ℕ :=
  (idxOf? c cs.reverse).map (fun i => cs.length - 1 - i)

/-- `indexOf(c, start)`. -/
def idxOfFrom? (c : Char) (cs : List Char) (start : ℕ) : Option ℕ :=
  (idxOf? c (cs.drop start)).map (· + start)

/-- A numeric token matched by the group `-?\d+(?:\.\d+)?`. -/
structure NumTok where
  neg : Bool
  intDs : List Char
  fracDs : List Char
deriving DecidableEq, Repr

/-- Numeric value of a digit-character list. -/
def digitsVal (ds : List Char) : ℕ := ds.foldl (fun acc c => acc * 10 + (c.toNat - 48)) 0

/-- Exact value denoted by a matched numeric token (what `parseFloat`
returns on the matched text). -/
def NumTok.val (t : NumTok) : ℚ :=
  let ip : ℚ := digitsVal t.intDs
  let fp : ℚ := (digitsVal t.fracDs : ℚ) / 10 ^ t.fracDs.length
  if t.neg then -(ip + fp) else ip + fp

/-- Greedy match of `-?\d+(?:\.\d+)?` at the current position (`none` when
the regex cannot match here). -/
def lexNumAt (cs : List Char) : Option (NumTok × List Char) :=
  let p : Bool × List Char := match cs with
    | '-' :: r => (true, r)
    | _ => (false, cs)
  let ints := p.2.takeWhile (·.isDigit)
  let cs2 := p.2.dropWhile (·.isDigit)
  if ints = [] then none
  else
    match cs2 with
    | '.' :: r =>
        let fr := r.takeWhile (·.isDigit)
        if fr = [] then some (⟨p.1, ints, []⟩, cs2)
        else some (⟨p.1, ints, fr⟩, r.dropWhile (·.isDigit))
    | _ => some (⟨p.1, ints, []⟩, cs2)

/-- Leftmost match of `(-?\d+(?:\.\d+)?)(op)(-?\d+(?:\.\d+)?)` for an
operator class `isOp`, mirroring the regex engine's position-by-position
scan.  Returns `(prefix, a, op, b, suffix)`. -/
def findOpMatch (isOp : Char → Bool) : List Char → Option (List Char × NumTok × Char × NumTok × List Char)
  | [] => none
  | c :: rest =>
      let here : Option (NumTok × Char × NumTok × List Char) :=
        match lexNumAt (c :: rest) with
        | some (a, op :: rest2) =>
            if isOp op then
              match lexNumAt rest2 with
              | some (b, rest3) => some (a, op, b, rest3)
              | none => none
            else none
        | _ => none
      match here with
      | some (a, op, b, rest3) => some ([], a, op, b, rest3)
      | none => (findOpMatch isOp rest).map (fun m => (c :: m.1, m.2.1, m.2.2.1, m.2.2.2.1, m.2.2.2.2))

/-- One `while (regex.test(e)) e = e.replace(regex, cb)` reduction pass,
with the operator-specific step function (fuel models the loop). -/
def runBinPass (step : JSNumber → JSNumber → Char → Except Err JSNumber) (isOp : Char → Bool) :
    ℕ → List Char → Except Err (List Char)
  | 0, _ => .error .fuelExhausted
  | fuel+1, cs =>
      match findOpMatch isOp cs with
      | none => .ok cs
      | some (pre, a, op, b, post) => do
          let r ← step (.fin a.val) (.fin b.val) op
          runBinPass step isOp fuel (pre ++ jsToStringNum r ++ post)

/-- `calculateMultiplyDivide` (precision-calculator.js 425-442). -/
def calculateMultiplyDivide (fuel : ℕ) (cs : List Char) : Except Err (List Char) :=
  runBinPass (fun a b op => if op = '*' then .ok (multiply a b) else divide a b)
    (fun c => c = '*' || c = '/') fuel cs

/-- `calculateAddSubtract` (precision-calculator.js 451-468). -/
def calculateAddSubtract (fuel : ℕ) (cs : List Char) : Except Err (List Char) :=
  runBinPass (fun a b op => if op = '+' then .ok (add a b) else .ok (subtract a b))
    (fun c => c = '+' || c = '-') fuel cs

/-- JS `parseFloat`: optional sign, `Infinity`, or decimal digits with
optional fraction and exponent; `NaN` when no numeric prefix exists. -/
def parseFloatJS (cs0 : List Char) : JSNumber :=
  let cs := cs0.dropWhile isWS
  let p : Bool × List Char := match cs with
    | '-' :: r => (true, r)
    | '+' :: r => (false, r)
    | _ => (false, cs)
  if ['I', 'n', 'f', 'i', 'n', 'i', 't', 'y'].isPrefixOf p.2 then
    if p.1 then .negInf else .posInf
  else
    let ints := p.2.takeWhile (·.isDigit)
    let cs2 := p.2.dropWhile (·.isDigit)
    let fr : List Char × List Char := match cs2 with
      | '.' :: r => (r.takeWhile (·.isDigit), r.dropWhile (·.isDigit))
      | _ => ([], cs2)
    if ints = [] ∧ fr.1 = [] then .nan
    else
      let mant : ℚ := (digitsVal ints : ℚ) + (digitsVal fr.1 : ℚ) / 10 ^ fr.1.length
      let ex : ℤ := match fr.2 with
        | 'e' :: '-' :: r => if (r.takeWhile (·.isDigit)) = [] then 0 else -(digitsVal (r.takeWhile (·.isDigit)) : ℤ)
        | 'E' :: '-' :: r => if (r.takeWhile (·.isDigit)) = [] then 0 else -(digitsVal (r.takeWhile (·.isDigit)) : ℤ)
        | 'e' :: '+' :: r => (digitsVal (r.takeWhile (·.isDigit)) : ℤ)
        | 'E' :: '+' :: r => (digitsVal (r.takeWhile (·.isDigit)) : ℤ)
        | 'e' :: r => (digitsVal (r.takeWhile (·.isDigit)) : ℤ)
        | 'E' :: r => (digitsVal (r.takeWhile (·.isDigit)) : ℤ)
        | _ => 0
      let v := mant * (10 : ℚ) ^ ex
      .fin (if p.1 then -v else v)

/-- `substring(a, b)` (with `a ≤ b` at every call site here). -/
def sliceList (cs : List Char) (a b : ℕ) : List Char := (cs.take b).drop a

/-- `evaluateExpression` (precision-calculator.js 395-416): resolve the
last `'('` against its nearest `')'` (innermost parenthesis), substitute
the stringified sub-result, and once parenthesis-free run the
multiplicative then the additive reduction pass and `parseFloat` the
residue.  The `while`-loop and the recursion both draw on `fuel`;
`fuelExhausted` never occurs in the verified executions. -/
def evaluateExpression : ℕ → List Char → Except Err JSNumber
  | 0, _ => .error .fuelExhausted
  | fuel+1, expr =>
      if '(' ∈ expr then
        match lastIdxOf? '(' expr with
        | none => .error .fuelExhausted
        | some lastOpen =>
          match idxOfFrom? ')' expr lastOpen with
          | none => .error .unbalancedParens
          | some firstClose => do
              let sub := sliceList expr (lastOpen + 1) firstClose
              let r ← evaluateExpression fuel sub
              evaluateExpression fuel (expr.take lastOpen ++ jsToStringNum r ++ expr.drop (firstClose + 1))
      else do
        let e1 ← calculateMultiplyDivide (fuel + 1) expr
        let e2 ← calculateAddSubtract (fuel + 1) e1
        .ok (parseFloatJS e2)

/-- `calculate` (precision-calculator.js 367-385): strip whitespace,
rewrite unary minus to `"(0-"` groups, append the matching `')'`s, then
evaluate.  The outer `try/catch` only rewraps the error message. -/
def calculate (expression : List Char) : Except Err JSNumber :=
  let clean := expression.filter (fun c => ! isWS c)
  let clean1 := rewriteOpMinus (rewriteLeadMinus clean)
  let clean2 := clean1 ++ List.replicate (countZeroMinus clean1) ')'
  evaluateExpression 99 clean2

end PC


namespace Core

/-- Token of the sanitized JS expression fragment fed to `Function` by
core-calculator.js `calculate` (maximal-munch lexing, so `++`, `--` and
`**` are single tokens). -/
inductive Tok where
  | num (q : ℚ)
  | add | sub | mul | div | inc | dec | pow | lp | rp
deriving DecidableEq, Repr

/-- Strict-mode legacy-octal rule: an integer literal part starting with
`'0'` and longer than one digit is a SyntaxError. -/
def octalBad (ints : List Char) : Bool :=
  match ints with
  | '0' :: _ :: _ => true
  | _ => false

/-- Lex a JS decimal number literal (digits, optional fraction; forms
`12`, `12.`, `12.5`, `.5`).  Errors on a lone `'.'` and on strict-mode
octal-looking literals. -/
def lexNumLit (cs : List Char) : Except Unit (ℚ × List Char) :=
  let ints := cs.takeWhile (·.isDigit)
  let cs2 := cs.dropWhile (·.isDigit)
  if octalBad ints then .error ()
  else
    match cs2 with
    | '.' :: r =>
        let fr := r.takeWhile (·.isDigit)
        if ints = [] ∧ fr = [] then .error ()
        else .ok ((PC.digitsVal ints : ℚ) + (PC.digitsVal fr : ℚ) / 10 ^ fr.length,
                  r.dropWhile (·.isDigit))
    | _ =>
        if ints = [] then .error ()
        else .ok ((PC.digitsVal ints : ℚ), cs2)

/-- Tokenizer for the sanitized character set (digits, operators, dot,
parentheses, space). -/
def tokenize : ℕ → List Char → Except Unit (List Tok)
  | 0, _ => .error ()
  | _, [] => .ok []
  | f+1, c :: rest =>
      if c = ' ' then tokenize f rest
      else if c = '+' then
        match rest with
        | '+' :: r => do let ts ← tokenize f r; .ok (.inc :: ts)
        | _ => do let ts ← tokenize f rest; .ok (.add :: ts)
      else if c = '-' then
        match rest with
        | '-' :: r => do let ts ← tokenize f r; .ok (.dec :: ts)
        | _ => do let ts ← tokenize f rest; .ok (.sub :: ts)
      else if c = '*' then
        match rest with
        | '*' :: r => do let ts ← tokenize f r; .ok (.pow :: ts)
        | _ => do let ts ← tokenize f rest; .ok (.mul :: ts)
      else if c = '/' then
        match rest with
        | '/' :: _ => .error ()
        | _ => do let ts ← tokenize f rest; .ok (.div :: ts)
      else if c = '(' then do let ts ← tokenize f rest; .ok (.lp :: ts)
      else if c = ')' then do let ts ← tokenize f rest; .ok (.rp :: ts)
      else if c.isDigit || c = '.' then do
        let p ← lexNumLit (c :: rest)
        let ts ← tokenize f p.2
        .ok (.num p.1 :: ts)
      else .error ()

/-- JS `**`.  Exact for integral finite exponents; a finite non-integral
exponent generally denotes an irrational real, which cannot arise from
exact doubles in the verified executions and is reported as an error. -/
def jsPow : JSNumber → JSNumber → Except Unit JSNumber
  | _, .fin 0 => .ok (.fin 1)
  | .nan, _ => .ok .nan
  | _, .nan => .ok .nan
  | .fin a, .fin b =>
      if b.den = 1 then
        if 0 < b then .ok (.fin (a ^ b.num.toNat))
        else if a = 0 then .ok .posInf
        else .ok (.fin (a⁻¹ ^ (-b.num).toNat))
      else .error ()
  | .posInf, .fin b => .ok (if 0 < b then .posInf else .fin 0)
  | .negInf, .fin b =>
      .ok (if 0 < b then (if b.den = 1 ∧ b.num % 2 = 1 then .negInf else .posInf)
           else .fin 0)
  | .fin a, .posInf =>
      .ok (if a = 1 ∨ a = -1 then .nan else if 1 < a ∨ a < -1 then .posInf else .fin 0)
  | .fin a, .negInf =>
      .ok (if a = 1 ∨ a = -1 then .nan else if 1 < a ∨ a < -1 then .fin 0 else .posInf)
  | _, .posInf => .ok .posInf
  | _, .negInf => .ok (.fin 0)

mutual

/-- `AdditiveExpression`. -/
def pAdd : ℕ → List Tok → Except Unit (JSNumber × List Tok)
  | 0, _ => .error ()
  | f+1, ts => do
      let p ← pMul f ts
      pAddRest f p.1 p.2

/-- Left-associative `+` / `-` tail. -/
def pAddRest : ℕ → JSNumber → List Tok → Except Unit (JSNumber × List Tok)
  | 0, _, _ => .error ()
  | f+1, acc, ts =>
      match ts with
      | .add :: r => do let p ← pMul f r; pAddRest f (jsAdd acc p.1) p.2
      | .sub :: r => do let p ← pMul f r; pAddRest f (jsSub acc p.1) p.2
      | _ => .ok (acc, ts)

/-- `MultiplicativeExpression`. -/
def pMul : ℕ → List Tok → Except Unit (JSNumber × List Tok)
  | 0, _ => .error ()
  | f+1, ts => do
      let p ← pExpo f ts
      pMulRest f p.1 p.2

/-- Left-associative `*` / `/` tail. -/
def pMulRest : ℕ → JSNumber → List Tok → Except Unit (JSNumber × List Tok)
  | 0, _, _ => .error ()
  | f+1, acc, ts =>
      match ts with
      | .mul :: r => do let p ← pExpo f r; pMulRest f (jsMul acc p.1) p.2
      | .div :: r => do let p ← pExpo f r; pMulRest f (jsDiv acc p.1) p.2
      | _ => .ok (acc, ts)

/-- `ExponentiationExpression`: a unary-signed operand may not be the left
operand of `**` (ECMA-262 early SyntaxError). -/
def pExpo : ℕ → List Tok → Except Unit (JSNumber × List Tok)
  | 0, _ => .error ()
  | f+1, ts =>
      match ts with
      | .add :: _ => do
          let p ← pUnaryChain f ts
          match p.2 with
          | .pow :: _ => .error ()
          | _ => .ok p
      | .sub :: _ => do
          let p ← pUnaryChain f ts
          match p.2 with
          | .pow :: _ => .error ()
          | _ => .ok p
      | _ => do
          let p ← pPrim f ts
          match p.2 with
          | .pow :: r2 => do
              let q ← pExpo f r2
              let v ← jsPow p.1 q.1
              .ok (v, q.2)
          | _ => .ok p

/-- `UnaryExpression`: chain of prefix `+` / `-`. -/
def pUnaryChain : ℕ → List Tok → Except Unit (JSNumber × List Tok)
  | 0, _ => .error ()
  | f+1, ts =>
      match ts with
      | .add :: r => pUnaryChain f r
      | .sub :: r => do let p ← pUnaryChain f r; .ok (jsNeg p.1, p.2)
      | _ => pPrim f ts

/-- `PrimaryExpression`: numeric literal or parenthesised expression.
`++` / `--` have no legal operand in this fragment (no identifiers), so
they are always SyntaxErrors. -/
def pPrim : ℕ → List Tok → Except Unit (JSNumber × List Tok)
  | 0, _ => .error ()
  | f+1, ts =>
      match ts with
      | .num q :: rest => .ok (.fin q, rest)
      | .lp :: rest => do
          let p ← pAdd f rest
          match p.2 with
          | .rp :: r2 => .ok (p.1, r2)
          | _ => .error ()
      | _ => .error ()

end

/-- Evaluation of a JS expression string, as `Function('"use strict";
return (' + s + ')')()` does on the sanitized fragment: lex, parse the
full token list as one expression, evaluate. -/
def jsEval (cs : List Char) : Except Unit JSNumber := do
  let ts ← tokenize (cs.length + 1) cs
  let p ← pAdd (ts.length * 2 + 2) ts
  if p.2 = [] then .ok p.1 else .error ()

/-- The sanitizer regex of core-calculator.js `calculate`: keep only
digits, the four operator characters, dot, parentheses and space. -/
def sanitize (cs : List Char) : List Char :=
  cs.filter (fun c => c.isDigit || c = '+' || c = '-' || c = '*' || c = '/' ||
    c = '.' || c = '(' || c = ')' || c = ' ')

/-- `format` (core-calculator.js 132-134) at the default precision 10:
`parseFloat(num.toFixed(10))`.  `toFixed` rounds the magnitude half-up at
10 fractional digits and falls back to `toString` at or above `10^21`. -/
def format10 : JSNumber → JSNumber
  | .fin q =>
      if 10 ^ 21 ≤ |q| then .fin q
      else if q < 0 then .fin (-((⌊(-q) * 10 ^ 10 + 1/2⌋ : ℤ) : ℚ) / 10 ^ 10)
      else .fin (((⌊q * 10 ^ 10 + 1/2⌋ : ℤ) : ℚ) / 10 ^ 10)
  | x => x

/-- `calculate` (core-calculator.js 205-213): sanitize, evaluate the
parenthesised expression, `format`; any evaluation error is rethrown as
"invalid expression". -/
def calculate (expression : List Char) : Except Err JSNumber :=
  match jsEval ('(' :: (sanitize expression ++ [')'])) with
  | .ok v => .ok (format10 v)
  | .error _ => .error .invalidExpression

/-- `calculateBatch` (core-calculator.js 220-228): per-element
`try { calculate } catch { null }`. -/
def calculateBatch (expressions : List (List Char)) : List (Option JSNumber) :=
  expressions.map fun expr =>
    match calculate expr with
    | .ok v => some v
    | .error _ => none

end Core


namespace MF

/-- `getDecimalPlaces` (mathfix-core.js 255-261): same computation as the
precision-calculator one. -/
def getDecimalPlaces (num : JSNumber) : ℕ := jsGetDecimalPlaces num

/-- `toInteger` (mathfix-core.js 269-271): `Math.round(num * 10^precision)`. -/
def toInteger (num : JSNumber) (precision : ℕ) : JSNumber :=
  jsRound (jsMul num (.fin (10 ^ precision)))

/-- `add` (mathfix-core.js 279-283). -/
def add (a b : JSNumber) : JSNumber :=
  let precision := max (getDecimalPlaces a) (getDecimalPlaces b)
  let multiplier : ℚ := 10 ^ precision
  jsDiv (jsAdd (toInteger a precision) (toInteger b precision)) (.fin multiplier)

/-- `subtract` (mathfix-core.js 291-295). -/
def subtract (a b : JSNumber) : JSNumber :=
  let precision := max (getDecimalPlaces a) (getDecimalPlaces b)
  let multiplier : ℚ := 10 ^ precision
  jsDiv (jsSub (toInteger a precision) (toInteger b precision)) (.fin multiplier)

/-- `multiply` (mathfix-core.js 303-308). -/
def multiply (a b : JSNumber) : JSNumber :=
  let precisionA := getDecimalPlaces a
  let precisionB := getDecimalPlaces b
  let multiplier : ℚ := 10 ^ (precisionA + precisionB)
  jsDiv (jsMul (toInteger a precisionA) (toInteger b precisionB)) (.fin multiplier)

/-- `divide` (mathfix-core.js 316-325): throws on `b === 0`, otherwise the
quotient of the two aligned scaled integers. -/
def divide (a b : JSNumber) : Except Err JSNumber :=
  if b = .fin 0 then .error .divisionByZero
  else
    let precision := max (getDecimalPlaces a) (getDecimalPlaces b)
    .ok (jsDiv (toInteger a precision) (toInteger b precision))

/-- The RMB capital digit characters. -/
def capDigit (d : ℕ) : Char :=
  ['零', '壹', '贰', '叁', '肆', '伍', '陆', '柒', '捌', '玖'].getD d '零'

/-- The section unit words `units[i]` of `toChineseCapital` (empty at 0). -/
def unitCap (i : ℕ) : List Char := [[], ['拾'], ['佰'], ['仟']].getD i []

/-- The big-unit words `bigUnits[i]` of `toChineseCapital`. -/
def bigUnitCap (i : ℕ) : List Char := [[], ['万'], ['亿'], ['兆']].getD i []

/-- `convertSection` (mathfix-core.js 160-182): a 4-digit group, scanning
digit positions 3..0 with the `needZero` bridging flag. -/
def convertSection (num : ℕ) : List Char :=
  (([3, 2, 1, 0] : List ℕ).foldl
    (fun (acc : List Char × Bool) i =>
      let digit := num / 10 ^ i % 10
      if 0 < digit then
        ((if acc.2 then acc.1 ++ ['零'] else acc.1) ++ [capDigit digit] ++ unitCap i, false)
      else
        (acc.1, if acc.1 ≠ [] then true else acc.2))
    ([], false)).1

/-- Loop body of `convertIntegerPart` (mathfix-core.js 131-157); the fuel
only bounds the `while (num > 0)` loop (at most four 4-digit sections
occur below the `10^12` range guard). -/
def convertIntegerPartAux : ℕ → ℕ → ℕ → List Char → List Char
  | 0, _, _, result => result
  | fuel+1, num, unitIndex, result =>
      if num = 0 then result
      else
        let sec := num % 10000
        let result1 :=
          if 0 < sec then
            (convertSection sec ++ (if 0 < unitIndex then bigUnitCap unitIndex else [])) ++ result
          else if result ≠ [] ∧ 0 < unitIndex then '零' :: result
          else result
        convertIntegerPartAux fuel (num / 10000) (unitIndex + 1) result1

/-- `convertIntegerPart` (mathfix-core.js 131-157). -/
def convertIntegerPart (num : ℕ) : List Char :=
  if num = 0 then [] else convertIntegerPartAux 20 num 0 []

/-- JS `parseInt` (radix 10, no hex prefix cases): sign and maximal digit
prefix; `none` models `NaN`. -/
def parseIntJS (cs : List Char) : Option ℤ :=
  let cs1 := cs.dropWhile PC.isWS
  let p : Bool × List Char := match cs1 with
    | '-' :: r => (true, r)
    | '+' :: r => (false, r)
    | _ => (false, cs1)
  let ds := p.2.takeWhile (·.isDigit)
  if ds = [] then none
  else some (if p.1 then -(PC.digitsVal ds : ℤ) else (PC.digitsVal ds : ℤ))

/-- `=== 0` against a possibly-`NaN` parsed digit. -/
def isZeroD : Option ℤ → Bool
  | some 0 => true
  | _ => false

/-- `> 0` against a possibly-`NaN` parsed digit (`NaN` compares false). -/
def isPosD : Option ℤ → Bool
  | some d => 0 < d
  | none => false

/-- Body of `toChineseCapital` (mathfix-core.js 76-128) after the zero and
negative checks: range guard, split `num.toString()` at the dot, convert
the integer part, append `元`, then the `角`/`分`/`整` fractional logic.
`parts[0]` always starts with a digit here, so the `parseInt` cannot be
`NaN`. -/
def toChineseCapitalPos (num : ℚ) : Except Err (List Char) :=
  if 10 ^ 12 ≤ num then .error .rangeError
  else
    let parts := splitOnDot (jsToString num)
    let integerPart : ℤ := (parseIntJS (parts.getD 0 [])).getD 0
    let decimalPart : List Char := parts.getD 1 []
    let result0 : List Char := if integerPart = 0 then ['零'] else convertIntegerPart integerPart.toNat
    let result1 := result0 ++ ['元']
    if decimalPart.length = 0 then .ok (result1 ++ ['整'])
    else
      let jiao : Option ℤ := parseIntJS [decimalPart.getD 0 ' ']
      let fen : Option ℤ := if 2 ≤ decimalPart.length then parseIntJS [decimalPart.getD 1 ' '] else some 0
      if isZeroD jiao ∧ isZeroD fen then .ok (result1 ++ ['整'])
      else
        let r2 := if isPosD jiao then result1 ++ [capDigit (jiao.getD 0).toNat, '角']
                  else if isPosD fen then result1 ++ ['零'] else result1
        if isPosD fen then .ok (r2 ++ [capDigit (fen.getD 0).toNat, '分']) else .ok r2

/-- `toChineseCapital` (mathfix-core.js 76-128) on finite numbers.  The
negative branch recurses once on `-num`, which then takes the positive
path. -/
def toChineseCapital (num : ℚ) : Except Err (List Char) :=
  if num = 0 then .ok ['零', '元', '整']
  else if num < 0 then do
    let r ← toChineseCapitalPos (-num)
    .ok ('负' :: r)
  else toChineseCapitalPos num

end MF


namespace Cfg

mutual

/-- A JSON-like configuration value (src/unnamed shared config module,
"配置管理模块" used by mathfix.js / mathfix.mjs). -/
inductive CVal where
  | num (q : ℚ)
  | bool (b : Bool)
  | str (s : List Char)
  | null
  | obj (fields : CObj)
deriving DecidableEq

/-- An object: an ordered association list of own enumerable keys (JS
objects have no duplicate keys). -/
inductive CObj where
  | nil
  | cons (k : List Char) (v : CVal) (rest : CObj)
deriving DecidableEq

end

/-- `target[key]` lookup. -/
def lookupKey : CObj → List Char → Option CVal
  | .nil, _ => none
  | .cons k v rest, key => if k = key then some v else lookupKey rest key

/-- `result[key] = v`: overwrite in place, else append. -/
def setKey : CObj → List Char → CVal → CObj
  | .nil, key, v => .cons key v .nil
  | .cons k w rest, key, v =>
      if k = key then .cons k v rest else .cons k w (setKey rest key v)

/-- `_deepMerge(target, source)` (shared config module): iterate the source
keys; plain values overwrite, object values merge recursively into an
object value at the same key and otherwise replace it by a copy. -/
def mergeInto (acc : CObj) : CObj → CObj
  | .nil => acc
  | .cons k sv rest =>
      let newV : CVal :=
        match sv with
        | .obj skvs =>
            match lookupKey acc k with
            | some (.obj tkvs) => .obj (mergeInto tkvs skvs)
            | _ => .obj skvs
        | v => v
      mergeInto (setKey acc k newV) rest

/-- Dotted-path lookup, one key per path component (`getConfig`'s walk). -/
def getPath : CVal → List (List Char) → Option CVal
  | v, [] => some v
  | .obj kvs, k :: rest =>
      match lookupKey kvs k with
      | some v => getPath v rest
      | none => none
  | _, _ :: _ => none

/-- The path is absent from the (partial) configuration object: walking it
reaches an object that lacks the next component.  (A path blocked by a
non-object value is not "absent" — the partial does override there.) -/
def absentFrom : CVal → List (List Char) → Bool
  | _, [] => false
  | .obj kvs, k :: rest =>
      match lookupKey kvs k with
      | none => true
      | some v => absentFrom v rest
  | _, _ :: _ => false

def precisionK : List Char := ['p', 'r', 'e', 'c', 'i', 's', 'i', 'o', 'n']
def defaultK : List Char := ['d', 'e', 'f', 'a', 'u', 'l', 't']
def maxK : List Char := ['m', 'a', 'x']
def minK : List Char := ['m', 'i', 'n']
def performanceK : List Char := ['p', 'e', 'r', 'f', 'o', 'r', 'm', 'a', 'n', 'c', 'e']
def cacheEnabledK : List Char := ['c', 'a', 'c', 'h', 'e', 'E', 'n', 'a', 'b', 'l', 'e', 'd']
def cacheSizeK : List Char := ['c', 'a', 'c', 'h', 'e', 'S', 'i', 'z', 'e']
def memoizeK : List Char := ['m', 'e', 'm', 'o', 'i', 'z', 'e']
def loggingK : List Char := ['l', 'o', 'g', 'g', 'i', 'n', 'g']
def enabledK : List Char := ['e', 'n', 'a', 'b', 'l', 'e', 'd']
def levelK : List Char := ['l', 'e', 'v', 'e', 'l']
def formatK : List Char := ['f', 'o', 'r', 'm', 'a', 't']
def errorsK : List Char := ['e', 'r', 'r', 'o', 'r', 's']
def throwInvK : List Char :=
  ['t', 'h', 'r', 'o', 'w', 'O', 'n', 'I', 'n', 'v', 'a', 'l', 'i', 'd', 'I', 'n', 'p', 'u', 't']
def throwDivK : List Char :=
  ['t', 'h', 'r', 'o', 'w', 'O', 'n', 'D', 'i', 'v', 'i', 's', 'i', 'o', 'n', 'B', 'y', 'Z', 'e', 'r', 'o']
def returnValK : List Char :=
  ['r', 'e', 't', 'u', 'r', 'n', 'V', 'a', 'l', 'u', 'e', 'O', 'n', 'E', 'r', 'r', 'o', 'r']
def i18nK : List Char := ['i', '1', '8', 'n']
def localeK : List Char := ['l', 'o', 'c', 'a', 'l', 'e']
def fallbackLocaleK : List Char :=
  ['f', 'a', 'l', 'l', 'b', 'a', 'c', 'k', 'L', 'o', 'c', 'a', 'l', 'e']

/-- Helper to build an object from a list of pairs. -/
def objOf : List (List Char × CVal) → CObj
  | [] => .nil
  | (k, v) :: rest => .cons k v (objOf rest)

/-- `DEFAULT_CONFIG` of the shared config module. -/
def DEFAULT_CONFIG : CObj :=
  objOf
    [(precisionK, .obj (objOf [(defaultK, .num 10), (maxK, .num 20), (minK, .num 0)])),
     (performanceK, .obj (objOf
       [(cacheEnabledK, .bool true), (cacheSizeK, .num 1000), (memoizeK, .bool true)])),
     (loggingK, .obj (objOf
       [(enabledK, .bool false), (levelK, .str ['i', 'n', 'f', 'o']),
        (formatK, .str ['s', 'i', 'm', 'p', 'l', 'e'])])),
     (errorsK, .obj (objOf
       [(throwInvK, .bool true), (throwDivK, .bool true), (returnValK, .null)])),
     (i18nK, .obj (objOf
       [(localeK, .str ['z', 'h', '-', 'C', 'N']),
        (fallbackLocaleK, .str ['e', 'n', '-', 'U', 'S'])]))]

/-- JS truthiness of a configuration value. -/
def truthy : CVal → Bool
  | .num q => ! (q == 0)
  | .bool b => b
  | .str s => ! (s == [])
  | .null => false
  | .obj _ => true

/-- `config[key]` on a possibly non-object value (`undefined` as `none`). -/
def getField : CVal → List Char → Option CVal
  | .obj kvs, k => lookupKey kvs k
  | _, _ => none

/-- One precision field check of `_validateConfig`: the field is valid when
absent, or a nonnegative number. -/
def fieldOk (pv : CVal) (key : List Char) : Bool :=
  match getField pv key with
  | none => true
  | some (.num q) => decide (0 ≤ q)
  | some _ => false

/-- `_validateConfig(config)` at the root path: the payload must be an
object, and a truthy `precision` entry must carry only nonnegative numeric
`default` / `max` / `min` fields. -/
def validateConfig (config : CVal) : Bool :=
  match config with
  | .obj kvs =>
      (match lookupKey kvs precisionK with
       | some pv =>
           if truthy pv then fieldOk pv defaultK && fieldOk pv maxK && fieldOk pv minK
           else true
       | none => true)
  | _ => false

/-- `setConfig(config, merge = true)` of the shared config module, as a
pure state transformer on the global layer: validation errors are the
thrown `ConfigurationError`s; `merge` deep-merges into the current layer,
`merge = false` rebuilds the layer from `DEFAULT_CONFIG` and the payload
alone. -/
def setConfig (globalConfig : CObj) (config : CVal) (merge : Bool) : Except Err CObj :=
  match config with
  | .obj ckvs =>
      if validateConfig config then
        if merge then .ok (mergeInto globalConfig ckvs)
        else .ok (mergeInto DEFAULT_CONFIG ckvs)
      else .error .configError
  | _ => .error .configError

/-- `key in object`. -/
def hasKey : CObj → List Char → Bool
  | .nil, _ => false
  | .cons k _ rest, key => k == key || hasKey rest key

mutual

/-- Well-formed configuration value: every nested object has pairwise
distinct keys (the invariant of real JS objects). -/
def wfV : CVal → Bool
  | .obj o => wfObj o
  | _ => true

/-- Well-formed configuration object. -/
def wfObj : CObj → Bool
  | .nil => true
  | .cons k v rest => !(hasKey rest k) && wfV v && wfObj rest

end

/-- The per-key merged value of `_deepMerge`: `tv` is the target's value
at the key (if any), `sv` the source's. -/
def mergeV (tv : Option CVal) (sv : CVal) : CVal :=
  match sv with
  | .obj skvs =>
      match tv with
      | some (.obj tkvs) => .obj (mergeInto tkvs skvs)
      | _ => .obj skvs
  | v => v

end Cfg



/-- A rational with denominator 1 is fixed by `Math.round`. -/
theorem jsRound_den_one (q : ℚ) (h : q.den = 1) : jsRound (.fin q) = .fin q := by
  have hq : ((q.num : ℚ)) = q := by
    conv_rhs => rw [← Rat.num_div_den q]
    rw [h]
    simp
  have hfloor : ⌊q + 1/2⌋ = q.num := by
    rw [← hq, add_comm, Int.floor_add_int]
    norm_num
  simp only [jsRound]
  rw [hfloor, hq]

/-- Scale-exactness of the scaled-integer `add`: when both operands are
exactly representable at their computed scales, the result is the exact
rational sum. -/
theorem pc_add_exact (a b : ℚ)
    (ha : (a * 10 ^ jsGetDecimalPlaces (.fin a)).den = 1)
    (hb : (b * 10 ^ jsGetDecimalPlaces (.fin b)).den = 1) :
    PC.add (.fin a) (.fin b) = .fin (a + b) := by
  have hra := jsRound_den_one _ ha
  have hrb := jsRound_den_one _ hb
  set da := jsGetDecimalPlaces (.fin a) with hda
  set db := jsGetDecimalPlaces (.fin b) with hdb
  have hpa : (0:ℚ) < 10 ^ da := by positivity
  have hpb : (0:ℚ) < 10 ^ db := by positivity
  have hmax : (0:ℚ) < max ((10:ℚ) ^ da) (10 ^ db) := lt_max_of_lt_left hpa
  simp only [PC.add, PC.toInteger, jsMul, ← hda, ← hdb, hra, hrb, jsAdd, jsDiv]
  rw [if_neg (ne_of_gt hmax)]
  congr 1
  field_simp
  ring

/-- Scale-exactness of the scaled-integer `multiply`. -/
theorem pc_multiply_exact (a b : ℚ)
    (ha : (a * 10 ^ jsGetDecimalPlaces (.fin a)).den = 1)
    (hb : (b * 10 ^ jsGetDecimalPlaces (.fin b)).den = 1) :
    PC.multiply (.fin a) (.fin b) = .fin (a * b) := by
  have hra := jsRound_den_one _ ha
  have hrb := jsRound_den_one _ hb
  set da := jsGetDecimalPlaces (.fin a) with hda
  set db := jsGetDecimalPlaces (.fin b) with hdb
  have hp : (0:ℚ) < 10 ^ da * 10 ^ db := by positivity
  simp only [PC.multiply, PC.toInteger, jsMul, ← hda, ← hdb, hra, hrb, jsDiv]
  rw [if_neg (ne_of_gt hp)]
  congr 1
  field_simp
  ring

/-- C1: `calculateBatch` maps `calculate` over the array with
partial-failure semantics — a failing element yields `null` (`none`) at
its position instead of aborting the batch — and on
`["1+1", "bad", "2*2"]` it returns `[2, null, 4]`. -/
theorem calculateBatch_null_on_failure :
    (∀ exprs : List (List Char),
      Core.calculateBatch exprs =
        exprs.map (fun e =>
          match Core.calculate e with
          | .ok v => some v
          | .error _ => none)) ∧
    Core.calculateBatch [['1', '+', '1'], ['b', 'a', 'd'], ['2', '*', '2']] =
      [some (.fin 2), none, some (.fin 4)] :=
  ⟨fun _ => rfl, by decide⟩

/-- C2: the scaled-integer arithmetic is decimal-exact on
decimal-representable operands (operands exactly representable at their
computed scales), and in particular `add(0.1, 0.2) = 0.3`,
`multiply(0.1, 3) = 0.3` and `divide(0.3, 0.1) = 3` exactly. -/
theorem scaled_arithmetic_decimal_exact :
    (∀ a b : ℚ, (a * 10 ^ jsGetDecimalPlaces (.fin a)).den = 1 →
       (b * 10 ^ jsGetDecimalPlaces (.fin b)).den = 1 →
       PC.add (.fin a) (.fin b) = .fin (a + b) ∧
       PC.multiply (.fin a) (.fin b) = .fin (a * b)) ∧
    PC.add (.fin 0.1) (.fin 0.2) = .fin 0.3 ∧
    PC.multiply (.fin 0.1) (.fin 3) = .fin 0.3 ∧
    PC.divide (.fin 0.3) (.fin 0.1) = .ok (.fin 3) :=
  ⟨fun a b ha hb => ⟨pc_add_exact a b ha hb, pc_multiply_exact a b ha hb⟩,
   by decide, by decide, by decide⟩

/-- Witness for C2: the general part applied at `a = 0.1`, `b = 0.2`. -/
theorem scaled_arithmetic_decimal_exact_witness :
    PC.add (.fin 0.1) (.fin 0.2) = .fin (0.1 + 0.2) :=
  (scaled_arithmetic_decimal_exact.1 0.1 0.2 (by decide) (by decide)).1

/-- C3: the expression evaluator computes
`calculate("(0.1 + 0.2) * 3 - 0.5") = 0.4`, `calculate("-5 + 3") = -2`
and `calculate("-(5 + 3) * 2") = -16`. -/
theorem calculate_examples :
    PC.calculate ['(', '0', '.', '1', ' ', '+', ' ', '0', '.', '2', ')', ' ',
        '*', ' ', '3', ' ', '-', ' ', '0', '.', '5'] = .ok (.fin 0.4) ∧
    PC.calculate ['-', '5', ' ', '+', ' ', '3'] = .ok (.fin (-2)) ∧
    PC.calculate ['-', '(', '5', ' ', '+', ' ', '3', ')', ' ', '*', ' ', '2'] =
      .ok (.fin (-16)) := by
  refine ⟨by decide, by decide, by decide⟩

/-- C4 (against the claim): on the residue `"bad"`, which is not a single
valid number, `calculate` does not fail with an InvalidExpression error —
it returns `parseFloat`'s `NaN`; a residue with a numeric prefix such as
`"1bad"` even yields that prefix as the result. -/
theorem calculate_invalid_residue_returns_nan :
    PC.calculate ['b', 'a', 'd'] = .ok .nan ∧
    PC.calculate ['1', 'b', 'a', 'd'] = .ok (.fin 1) :=
  ⟨by decide, by decide⟩

/-- C5: `divide(x, 0)` fails with DivisionByZero for every finite `x`, in
both the precision-calculator and the mathfix-core implementation. -/
theorem divide_by_zero_errs (x : ℚ) :
    PC.divide (.fin x) (.fin 0) = .error .divisionByZero ∧
    MF.divide (.fin x) (.fin 0) = .error .divisionByZero :=
  ⟨by simp [PC.divide], by simp [MF.divide]⟩

/-- C9: RMB-capital boundary cases: `toChineseCapital(0) = "零元整"` and
`toChineseCapital(1000000) = "壹佰万元整"`. -/
theorem toChineseCapital_boundaries :
    MF.toChineseCapital 0 = .ok ['零', '元', '整'] ∧
    MF.toChineseCapital 1000000 = .ok ['壹', '佰', '万', '元', '整'] :=
  ⟨by decide, by decide⟩

/-- C10: `toPercent(num, p, withSymbol)` computes
`round(multiply(num, 100), p)`; with the symbol it returns that value as a
string with `'%'` appended, without it the numeric value itself. -/
theorem toPercent_spec (num : JSNumber) (p : ℕ) :
    PC.toPercent num p true =
      .str (jsToStringNum (PC.round (PC.multiply num (.fin 100)) p) ++ ['%']) ∧
    PC.toPercent num p false = .num (PC.round (PC.multiply num (.fin 100)) p) :=
  ⟨rfl, rfl⟩

/-- `decSearch` finds a scale exponent, starting at `i`, and it is the
least one at or above `i`. -/
theorem decSearch_spec (q : ℚ) :
    ∀ f i e, decSearch q i f = some e →
      (q * 10 ^ e).den = 1 ∧ i ≤ e ∧ ∀ j, i ≤ j → j < e → (q * 10 ^ j).den ≠ 1 := by
  intro f
  induction f with
  | zero => intro i e h; simp [decSearch] at h
  | succ f ih =>
      intro i e h
      by_cases hden : (q * 10 ^ i).den = 1
      · simp [decSearch, hden] at h
        subst h
        exact ⟨hden, le_refl _, fun j h1 h2 => absurd h1 (by omega)⟩
      · simp [decSearch, hden] at h
        obtain ⟨h1, h2, h3⟩ := ih (i + 1) e h
        refine ⟨h1, by omega, fun j hj1 hj2 => ?_⟩
        rcases eq_or_lt_of_le hj1 with rfl | hlt
        · exact hden
        · exact h3 j (by omega) hj2

/-- Every character of `natDigitsAux` is a decimal digit character. -/
theorem mem_natDigitsAux :
    ∀ f n c, c ∈ natDigitsAux f n → ∃ d, d < 10 ∧ c = natDigitChar d := by
  intro f
  induction f with
  | zero => intro n c h; simp [natDigitsAux] at h
  | succ f ih =>
      intro n c h
      by_cases hn : n < 10
      · simp [natDigitsAux, hn] at h
        exact ⟨n, hn, h⟩
      · simp [natDigitsAux, hn] at h
        rcases h with h | h
        · exact ih _ _ h
        · exact ⟨n % 10, Nat.mod_lt _ (by omega), h⟩

/-- Digit characters are not the decimal point. -/
theorem natDigitChar_ne_dot (d : ℕ) (hd : d < 10) : natDigitChar d ≠ '.' := by
  interval_cases d <;> decide

/-- The decimal point does not occur among the digits of a natural. -/
theorem dot_not_mem_natDigits (n : ℕ) : '.' ∉ natDigits n := by
  intro h
  obtain ⟨d, hd, hc⟩ := mem_natDigitsAux _ _ _ h
  exact natDigitChar_ne_dot d hd hc.symm

/-- `split('.')` on a dot-free string. -/
theorem splitOnDot_no_dot : ∀ cs : List Char, '.' ∉ cs → splitOnDot cs = [cs] := by
  intro cs
  induction cs with
  | nil => intro _; rfl
  | cons c rest ih =>
      intro h
      have hc : ¬ (c = '.') := fun hc => h (by simp [hc])
      have hr := ih (fun hm => h (by simp [hm]))
      simp [splitOnDot, hc, hr]

/-- `split('.')` around the first dot. -/
theorem splitOnDot_append :
    ∀ pre suf : List Char, '.' ∉ pre →
      splitOnDot (pre ++ '.' :: suf) = pre :: splitOnDot suf := by
  intro pre
  induction pre with
  | nil => intro suf _; simp [splitOnDot]
  | cons c rest ih =>
      intro suf h
      have hc : ¬ (c = '.') := fun hc => h (by simp [hc])
      have hr := ih suf (fun hm => h (by simp [hm]))
      simp only [List.cons_append, splitOnDot, if_neg hc]
      rw [show rest.append ('.' :: suf) = rest ++ '.' :: suf from rfl, hr]

/-- The `indexOf`/`split` computation of `getDecimalPlaces` on a string
with exactly one interior dot returns the suffix length. -/
theorem dp_calc (pre suf : List Char) (h1 : '.' ∉ pre) (h2 : '.' ∉ suf) :
    (if '.' ∈ (pre ++ '.' :: suf) then ((splitOnDot (pre ++ '.' :: suf)).getD 1 []).length else 0)
      = suf.length := by
  rw [if_pos (by simp), splitOnDot_append _ _ h1, splitOnDot_no_dot _ h2]
  rfl

/-- C6 (amended): on every number whose canonical decimal representation
`m / 10^e` renders in non-exponential notation (decimal-point position
`n = digits(m) - e` with `-6 < n ≤ 21`), `getDecimalPlaces` returns the
count of digits after the decimal point of the canonical base-10 string —
the least `e` with `x * 10^e` integral — and hence `0` on such integers. -/
theorem getDecimalPlaces_canonical (q : ℚ) (m : ℤ) (e : ℕ)
    (hdec : decExp? q = some (m, e))
    (hlo : (-6 : ℤ) < ((natDigits m.natAbs).length : ℤ) - e)
    (hhi : ((natDigits m.natAbs).length : ℤ) - e ≤ 21) :
    jsGetDecimalPlaces (.fin q) = specFracDigits q ∧ specFracDigits q = e := by
  obtain ⟨e', hsearch0, hpair⟩ := Option.map_eq_some'.mp hdec
  have he : e' = e := congrArg Prod.snd hpair
  have hsearch : decSearch q 0 1100 = some e := by rw [hsearch0, he]
  have hm : (q * 10 ^ e).num = m := by rw [← he]; exact congrArg Prod.fst hpair
  have hspec : specFracDigits q = e := by simp [specFracDigits, hsearch]
  refine ⟨?_, hspec⟩
  rw [hspec]
  simp only [jsGetDecimalPlaces, jsToStringNum, jsToString, hdec]
  by_cases hm0 : m = 0
  · -- `m = 0` forces `q = 0` and hence `e = 0`
    have hq0 : q = 0 := by
      have : q * 10 ^ e = 0 := by
        rw [← Rat.num_eq_zero, hm, hm0]
      rcases mul_eq_zero.mp this with h | h
      · exact h
      · exact absurd h (by positivity)
    have he0 : e = 0 := by
      have : decSearch q 0 1100 = some 0 := by rw [hq0]; decide
      exact (Option.some.inj (this.symm.trans hsearch)).symm
    simp [hm0, he0]
  · -- nonzero mantissa: analyse the rendering branches
    have hsign : '.' ∉ (if m < 0 then ['-'] else ([] : List Char)) := by
      by_cases h : m < 0 <;> simp [h]
    have hds : '.' ∉ natDigits m.natAbs := dot_not_mem_natDigits _
    rw [if_neg hm0]
    by_cases he0 : e = 0
    · -- integer rendering, no decimal point
      subst he0
      have hk : (natDigits m.natAbs).length ≤ 21 := by omega
      rw [show renderPos m.natAbs 0 = natDigits m.natAbs by
        simp [renderPos, hk]]
      rw [if_neg (by
        intro hmem
        rcases List.mem_append.mp hmem with h | h
        · exact hsign h
        · exact hds h)]
    · -- fractional rendering: one interior decimal point either way
      set ds := natDigits m.natAbs with hdsdef
      set k := ds.length with hkdef
      have h21 : ¬ (21 < (k : ℤ) - e) := by omega
      by_cases hn : 0 < (k : ℤ) - e
      · have hren : renderPos m.natAbs e =
            ds.take ((k : ℤ) - e).toNat ++ '.' :: ds.drop ((k : ℤ) - e).toNat := by
          simp only [renderPos, ← hdsdef, ← hkdef, if_neg he0, if_neg h21, if_pos hn]
        rw [hren, ← List.append_assoc, dp_calc _ _
          (fun hmem => by
            rcases List.mem_append.mp hmem with h | h
            · exact hsign h
            · exact hds (List.take_subset _ _ h))
          (fun hmem => hds (List.drop_subset _ _ hmem))]
        rw [List.length_drop]
        omega
      · have hlo6 : (-6 : ℤ) < (k : ℤ) - e := by omega
        have hren : renderPos m.natAbs e =
            '0' :: '.' :: (List.replicate (e - k) '0' ++ ds) := by
          simp only [renderPos, ← hdsdef, ← hkdef, if_neg he0, if_neg h21, if_neg hn,
            if_pos hlo6]
        have hassoc :
            (if m < 0 then ['-'] else ([] : List Char)) ++
              ('0' :: '.' :: (List.replicate (e - k) '0' ++ ds)) =
            ((if m < 0 then ['-'] else ([] : List Char)) ++ ['0']) ++
              '.' :: (List.replicate (e - k) '0' ++ ds) := by
          simp
        rw [hren, hassoc, dp_calc _ _
          (fun hmem => by
            rcases List.mem_append.mp hmem with h | h
            · exact hsign h
            · simp at h)
          (fun hmem => by
            rcases List.mem_append.mp hmem with h | h
            · have := List.eq_of_mem_replicate h
              simp at this
            · exact hds h)]
        simp only [List.length_append, List.length_replicate]
        omega

/-- C6 (counterexample): at `x = 1e-7` — which stringifies in exponential
notation — `getDecimalPlaces` returns `0`, while the canonical
(non-exponential) decimal form `0.0000001` has `7` fractional digits. -/
theorem getDecimalPlaces_exponential_counterexample :
    jsGetDecimalPlaces (.fin (1 / 10 ^ 7)) = 0 ∧
    specFracDigits (1 / 10 ^ 7) = 7 ∧
    jsGetDecimalPlaces (.fin (1 / 10 ^ 7)) ≠ specFracDigits (1 / 10 ^ 7) :=
  ⟨by decide, by decide, by decide⟩

/-- Witness for C6 (amended) at `q = 0.1`. -/
theorem getDecimalPlaces_canonical_witness :
    jsGetDecimalPlaces (.fin (1 / 10)) = specFracDigits (1 / 10) ∧
    specFracDigits (1 / 10) = 1 :=
  getDecimalPlaces_canonical (1 / 10) 1 1 (by decide) (by decide) (by decide)

/-- C8: `toChineseCapital(x)` fails with a RangeError for every number
above `10^12`. -/
theorem toChineseCapital_range (x : ℚ) (h : 10 ^ 12 < x) :
    MF.toChineseCapital x = .error .rangeError := by
  have hx : (0 : ℚ) < x := lt_trans (by norm_num) h
  simp only [MF.toChineseCapital, MF.toChineseCapitalPos]
  rw [if_neg hx.ne', if_neg (not_lt.mpr hx.le), if_pos (le_of_lt h)]

/-- Witness for C8 at `x = 10^12 + 1`. -/
theorem toChineseCapital_range_witness :
    MF.toChineseCapital (10 ^ 12 + 1) = .error .rangeError :=
  toChineseCapital_range (10 ^ 12 + 1) (by norm_num)


namespace Cfg

theorem mergeInto_cons (acc : CObj) (k : List Char) (sv : CVal) (rest : CObj) :
    mergeInto acc (.cons k sv rest) =
      mergeInto (setKey acc k (mergeV (lookupKey acc k) sv)) rest := by
  cases sv <;> rfl

theorem lookupKey_setKey_self : ∀ (o : CObj) (k : List Char) (v : CVal),
    lookupKey (setKey o k v) k = some v
  | .nil, k, v => by simp [setKey, lookupKey]
  | .cons k' w rest, k, v => by
      by_cases h : k' = k
      · simp [setKey, lookupKey, h]
      · simp [setKey, lookupKey, h, lookupKey_setKey_self rest k v]

theorem lookupKey_setKey_ne : ∀ (o : CObj) (k k' : List Char) (v : CVal), k' ≠ k →
    lookupKey (setKey o k' v) k = lookupKey o k
  | .nil, k, k', v, h => by simp [setKey, lookupKey, h]
  | .cons k2 w rest, k, k', v, h => by
      by_cases h2 : k2 = k'
      · subst h2
        simp [setKey, lookupKey, h]
      · simp [setKey, h2, lookupKey, lookupKey_setKey_ne rest k k' v h]

theorem lookupKey_hasKey_false : ∀ (o : CObj) (k : List Char), hasKey o k = false →
    lookupKey o k = none
  | .nil, k, _ => rfl
  | .cons k' v rest, k, h => by
      simp only [hasKey, Bool.or_eq_false_iff, beq_eq_false_iff_ne, ne_eq] at h
      simp [lookupKey, h.1, lookupKey_hasKey_false rest k h.2]

theorem lookupKey_mergeInto_none : ∀ (s g : CObj) (k : List Char), lookupKey s k = none →
    lookupKey (mergeInto g s) k = lookupKey g k
  | .nil, g, k, _ => rfl
  | .cons k' sv rest, g, k, h => by
      simp only [lookupKey] at h
      by_cases hk : k' = k
      · simp [hk] at h
      · rw [mergeInto_cons]
        rw [lookupKey_mergeInto_none rest _ k (by simpa [hk] using h)]
        exact lookupKey_setKey_ne _ _ _ _ hk

theorem wfObj_lookup : ∀ (s : CObj) (k : List Char) (v : CVal), wfObj s = true →
    lookupKey s k = some v → wfV v = true
  | .nil, k, v, _, h => by simp [lookupKey] at h
  | .cons k' w rest, k, v, hwf, h => by
      simp only [wfObj, Bool.and_eq_true] at hwf
      simp only [lookupKey] at h
      by_cases hk : k' = k
      · rw [if_pos hk] at h
        cases h
        exact hwf.1.2
      · exact wfObj_lookup rest k v hwf.2 (by rwa [if_neg hk] at h)

theorem lookupKey_mergeInto_some : ∀ (s g : CObj) (k : List Char) (sv : CVal),
    wfObj s = true → lookupKey s k = some sv →
    lookupKey (mergeInto g s) k = some (mergeV (lookupKey g k) sv)
  | .nil, g, k, sv, _, h => by simp [lookupKey] at h
  | .cons k' sv' rest, g, k, sv, hwf, h => by
      simp only [wfObj, Bool.and_eq_true, Bool.not_eq_true'] at hwf
      simp only [lookupKey] at h
      rw [mergeInto_cons]
      by_cases hk : k' = k
      · rw [if_pos hk] at h
        cases h
        subst hk
        rw [lookupKey_mergeInto_none rest _ _ (lookupKey_hasKey_false _ _ hwf.1.1)]
        exact lookupKey_setKey_self _ _ _
      · rw [if_neg hk] at h
        rw [lookupKey_mergeInto_some rest _ k sv hwf.2 h, lookupKey_setKey_ne _ _ _ _ hk]

theorem absentFrom_nil (v : CVal) : absentFrom v [] = false := by
  cases v <;> rfl

theorem getPath_of_absent :
    ∀ (p : List (List Char)) (v : CVal), absentFrom v p = true → getPath v p = none := by
  intro p
  induction p with
  | nil => intro v h; rw [absentFrom_nil] at h; exact absurd h (by simp)
  | cons k rest ih =>
      intro v h
      cases v with
      | obj kvs =>
          simp only [absentFrom] at h
          cases hlk : lookupKey kvs k with
          | none => simp [getPath, hlk]
          | some w =>
              rw [hlk] at h
              have h2 : absentFrom w rest = true := h
              simp [getPath, hlk, ih _ h2]
      | num q => simp [absentFrom] at h
      | bool b => simp [absentFrom] at h
      | str s => simp [absentFrom] at h
      | null => simp [absentFrom] at h

/-- Deep-merge retention: any path absent from the (well-formed) partial
source keeps its value from the target. -/
theorem getPath_mergeInto :
    ∀ (p : List (List Char)) (g s : CObj), wfObj s = true →
      absentFrom (.obj s) p = true →
      getPath (.obj (mergeInto g s)) p = getPath (.obj g) p := by
  intro p
  induction p with
  | nil => intro g s _ h; rw [absentFrom_nil] at h; exact absurd h (by simp)
  | cons k rest ih =>
      intro g s hwf habs
      simp only [absentFrom] at habs
      cases hlk : lookupKey s k with
      | none =>
          simp [getPath, lookupKey_mergeInto_none s g k hlk]
      | some sv =>
          rw [hlk] at habs
          have habs2 : absentFrom sv rest = true := habs
          have hstep : getPath (.obj (mergeInto g s)) (k :: rest) =
              getPath (mergeV (lookupKey g k) sv) rest := by
            simp [getPath, lookupKey_mergeInto_some s g k sv hwf hlk]
          rw [hstep]
          cases sv with
          | obj skvs =>
              have hwfs : wfObj skvs = true := wfObj_lookup s k _ hwf hlk
              cases hgk : lookupKey g k with
              | none =>
                  simp only [mergeV]
                  rw [getPath_of_absent _ _ habs2]
                  simp [getPath, hgk]
              | some tv =>
                  cases tv with
                  | obj tkvs =>
                      simp only [mergeV]
                      simp [getPath, hgk, ih tkvs skvs hwfs habs2]
                  | num q =>
                      cases rest with
                      | nil => rw [absentFrom_nil] at habs2; exact absurd habs2 (by simp)
                      | cons r rs =>
                          simp only [mergeV]
                          rw [getPath_of_absent _ _ habs2]
                          simp [getPath, hgk]
                  | bool b =>
                      cases rest with
                      | nil => rw [absentFrom_nil] at habs2; exact absurd habs2 (by simp)
                      | cons r rs =>
                          simp only [mergeV]
                          rw [getPath_of_absent _ _ habs2]
                          simp [getPath, hgk]
                  | str s2 =>
                      cases rest with
                      | nil => rw [absentFrom_nil] at habs2; exact absurd habs2 (by simp)
                      | cons r rs =>
                          simp only [mergeV]
                          rw [getPath_of_absent _ _ habs2]
                          simp [getPath, hgk]
                  | null =>
                      cases rest with
                      | nil => rw [absentFrom_nil] at habs2; exact absurd habs2 (by simp)
                      | cons r rs =>
                          simp only [mergeV]
                          rw [getPath_of_absent _ _ habs2]
                          simp [getPath, hgk]
          | num q =>
              cases rest with
              | nil => rw [absentFrom_nil] at habs2; exact absurd habs2 (by simp)
              | cons r rs => simp [absentFrom] at habs2
          | bool b =>
              cases rest with
              | nil => rw [absentFrom_nil] at habs2; exact absurd habs2 (by simp)
              | cons r rs => simp [absentFrom] at habs2
          | str s2 =>
              cases rest with
              | nil => rw [absentFrom_nil] at habs2; exact absurd habs2 (by simp)
              | cons r rs => simp [absentFrom] at habs2
          | null =>
              cases rest with
              | nil => rw [absentFrom_nil] at habs2; exact absurd habs2 (by simp)
              | cons r rs => simp [absentFrom] at habs2

end Cfg

/-- C7: `setConfig(partial)` deep-merges the partial options object into
the addressed (global) configuration layer, so every nested key path
absent from the partial retains its previous value; `merge = false`
instead rebuilds the layer from the defaults and the payload alone,
independently of the previous contents. -/
theorem setConfig_deep_merge :
    (∀ (g : Cfg.CObj) (p : Cfg.CVal) (g' : Cfg.CObj) (path : List (List Char)),
      Cfg.wfV p = true →
      Cfg.setConfig g p true = .ok g' →
      Cfg.absentFrom p path = true →
      Cfg.getPath (.obj g') path = Cfg.getPath (.obj g) path) ∧
    (∀ (g1 g2 : Cfg.CObj) (p : Cfg.CVal) (r1 r2 : Cfg.CObj),
      Cfg.setConfig g1 p false = .ok r1 → Cfg.setConfig g2 p false = .ok r2 →
      r1 = r2) := by
  constructor
  · intro g p g' path hwf hset habs
    cases p with
    | obj ckvs =>
        simp only [Cfg.setConfig] at hset
        by_cases hv : Cfg.validateConfig (.obj ckvs) = true
        · rw [if_pos hv] at hset
          have hg : Cfg.mergeInto g ckvs = g' := Except.ok.inj hset
          subst hg
          simp only [Cfg.wfV] at hwf
          exact Cfg.getPath_mergeInto path g ckvs hwf habs
        · rw [if_neg hv] at hset
          exact absurd hset (by simp)
    | num q => simp [Cfg.setConfig] at hset
    | bool b => simp [Cfg.setConfig] at hset
    | str s => simp [Cfg.setConfig] at hset
    | null => simp [Cfg.setConfig] at hset
  · intro g1 g2 p r1 r2 h1 h2
    cases p with
    | obj ckvs =>
        simp only [Cfg.setConfig] at h1 h2
        by_cases hv : Cfg.validateConfig (.obj ckvs) = true
        · rw [if_pos hv] at h1 h2
          rw [← Except.ok.inj h1, ← Except.ok.inj h2]
        · rw [if_neg hv] at h1
          exact absurd h1 (by simp)
    | num q => simp [Cfg.setConfig] at h1
    | bool b => simp [Cfg.setConfig] at h1
    | str s => simp [Cfg.setConfig] at h1
    | null => simp [Cfg.setConfig] at h1

/-- Witness for C7: merging `{precision: {max: 50}}` into the defaults
leaves `precision.default` untouched. -/
theorem setConfig_deep_merge_witness :
    Cfg.getPath
      (.obj (Cfg.mergeInto Cfg.DEFAULT_CONFIG
        (.cons Cfg.precisionK (.obj (.cons Cfg.maxK (.num 50) .nil)) .nil)))
      [Cfg.precisionK, Cfg.defaultK] =
    Cfg.getPath (.obj Cfg.DEFAULT_CONFIG) [Cfg.precisionK, Cfg.defaultK] :=
  setConfig_deep_merge.1 Cfg.DEFAULT_CONFIG
    (.obj (.cons Cfg.precisionK (.obj (.cons Cfg.maxK (.num 50) .nil)) .nil))
    (Cfg.mergeInto Cfg.DEFAULT_CONFIG
      (.cons Cfg.precisionK (.obj (.cons Cfg.maxK (.num 50) .nil)) .nil))
    [Cfg.precisionK, Cfg.defaultK]
    (by decide) (by decide) (by decide)

/-- Witness for C1 at a concrete batch. -/
theorem calculateBatch_null_on_failure_witness :
    Core.calculateBatch [['2', '*', '2']] =
      [['2', '*', '2']].map (fun e =>
        match Core.calculate e with
        | .ok v => some v
        | .error _ => none) :=
  calculateBatch_null_on_failure.1 [['2', '*', '2']]

/-- Witness for C5 at `x = 7`. -/
theorem divide_by_zero_errs_witness :
    PC.divide (.fin 7) (.fin 0) = .error .divisionByZero ∧
    MF.divide (.fin 7) (.fin 0) = .error .divisionByZero :=
  divide_by_zero_errs 7

/-- Witness for C10 at `num = 1/8`, `p = 2`. -/
theorem toPercent_spec_witness :
    PC.toPercent (.fin (1/8)) 2 true =
      .str (jsToStringNum (PC.round (PC.multiply (.fin (1/8)) (.fin 100)) 2) ++ ['%']) ∧
    PC.toPercent (.fin (1/8)) 2 false =
      .num (PC.round (PC.multiply (.fin (1/8)) (.fin 100)) 2) :=
  toPercent_spec (.fin (1/8)) 2
